import Mathlib

set_option maxRecDepth 100000

/-!
Verification of the Task Curriculum & Reward Engine (`envs/env_trs_uni.py`)

A shallow embedding of the task-stream environment `Env` of
`src/envs/env_trs_uni.py`: the task encoder/decoder, the two task-selector
strategies, the per-step reward & progress state machine, and the episode
bookkeeping, together with theorems settling the specification claims.

Python `float` arithmetic (used for the fractional repeat-task progress) is
modelled exactly: an IEEE-754 binary64 value is represented by the rational
number it denotes, and each arithmetic operation rounds its exact rational
result to 53 significant bits, round-to-nearest with ties to even.  All
quantities arising here lie far inside the normal range, so overflow and
subnormal rounding never occur and are not modelled.
-/

/-! ## Exact model of IEEE-754 binary64 arithmetic (normal range) -/

/-- Floor of log₂ with explicit fuel, so that the recursion is structural and
the kernel can evaluate it. -/
def log2fuel : ℕ → ℕ → ℕ
  | 0, _ => 0
  | fuel + 1, n => if n < 2 then 0 else log2fuel fuel (n / 2) + 1

/-- The value `nlog2 n` is `⌊log₂ n⌋` for `n ≥ 1` (and `0` at `0`). -/
def nlog2 (n : ℕ) : ℕ := log2fuel n n

/-- Does `2 ^ k ≤ a / b` hold (for natural `a`, `b` with `b ≠ 0`)? -/
def twoPowLe (k : ℤ) (a b : ℕ) : Bool :=
  if 0 ≤ k then Nat.ble (b * 2 ^ k.toNat) a else Nat.ble b (a * 2 ^ (-k).toNat)

/-- Floor of log₂ of `a / b` for positive naturals `a`, `b`: the candidate
`⌊log₂ a⌋ - ⌊log₂ b⌋` is exact or one too large, so one comparison fixes it. -/
def floorLog2 (a b : ℕ) : ℤ :=
  let k : ℤ := (nlog2 a : ℤ) - (nlog2 b : ℤ)
  if twoPowLe k a b then k else k - 1

/-- Round the nonnegative rational `A / B` to the nearest integer, ties to
even. -/
def rne (A B : ℕ) : ℕ :=
  let q := A / B
  let r := A % B
  if 2 * r < B then q
  else if B < 2 * r then q + 1
  else if q % 2 = 0 then q else q + 1

/-- Round the positive rational `a / b` to the nearest IEEE binary64 value
(ties to even), returned as its exact rational value: scale into the binade
`[2^52, 2^53)`, round the 53-bit significand, scale back. -/
def roundPos (a b : ℕ) : ℚ :=
  let e : ℤ := floorLog2 a b - 52
  if 0 ≤ e then mkRat ((rne a (b * 2 ^ e.toNat) * 2 ^ e.toNat : ℕ) : ℤ) 1
  else mkRat ((rne (a * 2 ^ (-e).toNat) b : ℕ) : ℤ) (2 ^ (-e).toNat)

/-- The IEEE binary64 value nearest the rational `n / d` (ties to even; the
normal range suffices for every quantity in this development).  Exact inputs
are passed as numerator/denominator pairs, and results are built with `mkRat`,
because the library's rational arithmetic is deliberately irreducible. -/
def roundDInt (n : ℤ) (d : ℤ) : ℚ :=
  let a := n.natAbs
  let b := d.natAbs
  if a = 0 then 0
  else if (0 ≤ n ∧ 0 ≤ d) ∨ (n < 0 ∧ d < 0) then roundPos a b
  else Rat.neg (roundPos a b)

/-- Python `float` addition: exact sum, then binary64 rounding. -/
def fadd (x y : ℚ) : ℚ :=
  roundDInt (x.num * (y.den : ℤ) + y.num * (x.den : ℤ)) ((x.den : ℤ) * (y.den : ℤ))

/-- Python `float` division: exact quotient, then binary64 rounding (division
by zero raises in Python and is guarded before every call here). -/
def fdiv (x y : ℚ) : ℚ :=
  roundDInt (x.num * (y.den : ℤ)) ((x.den : ℤ) * y.num)

/-! ## String helpers mirroring the Python primitives

Core `String.splitOn`/`String.toNat?` are defined by well-founded recursion,
which the kernel cannot evaluate; the loops below are structural equivalents
of the exact Python operations the source uses. -/

/-- Python `str.split('_')` on the character list: underscores delimit
(possibly empty) tokens. -/
def splitU : List Char → List String
  | [] => [""]
  | c :: cs =>
    if c = '_' then "" :: splitU cs
    else
      match splitU cs with
      | [] => [String.mk [c]]
      | w :: ws => String.mk (c :: w.data) :: ws

/-- Python `task_desc.split('_')`. -/
def pySplit (s : String) : List String := splitU s.data

/-- Python `sep.join(words)`. -/
def pyJoin (sep : String) : List String → String
  | [] => ""
  | [w] => w
  | w :: ws => w ++ sep ++ pyJoin sep ws

/-- Python `float(tok)` applied to a repeat-count token, as the integer it
denotes.  A token that is not a plain digit string raises `ValueError` in the
source and yields `none` here (the repeat counts are integer literals by
construction). -/
def tokToNat (s : String) : Option ℕ :=
  if s.data ≠ [] ∧ s.data.all Char.isDigit then
    some (s.data.foldl (fun acc c => 10 * acc + (c.toNat - 48)) 0)
  else none

/-! ## Data model

The environment class `Env` of `envs/env_trs_uni.py`.  The task vocabulary
(`ENC_ORDER`, `target_achievements`, `target_achievements_base`, `isreptask`)
is built in `__init__` from `crafter.constants` and the external
`envs.env_utils` helpers (`SYNONYMS`, `get_synonym_tasks`, `get_repeat_tasks`),
none of which belong to this repository; it is therefore an arbitrary
`Config`.  The process-wide `np.random` source is modelled by passing each
call's drawn outcomes explicitly as a `Draw`. -/

/-- Source constant: `DUMMY_BITS = 10` (for 2^N dummy tasks, min = 1). -/
def DUMMY_BITS : ℕ := 10

/-- Source constant: `DUMMY_TASKS = np.power(2, DUMMY_BITS) - 1`. -/
def DUMMY_TASKS : ℕ := 2 ^ DUMMY_BITS - 1

/-- The read-only task vocabulary consumed by the engine. -/
structure Config where
  enc_order : List String
  target_achievements : List String
  target_achievements_base : List String
  isreptask : List Bool

/-- One call's worth of outcomes of the process-wide random source:
`curri_idx` is the draw of `np.random.choice(np.arange(len + DUMMY_TASKS))`
in `_specify_curri_task`; `shuffle` is the permutation chosen by
`np.random.shuffle`, given as the list of source positions to read; `dummy_bits`
is the draw of `np.random.choice([0, 1], size=DUMMY_BITS)` and `dummy_pos` the
draw of `np.random.randint(DUMMY_BITS)` in `_encode_task`. -/
structure Draw where
  curri_idx : ℕ
  shuffle : List ℕ
  dummy_bits : Fin DUMMY_BITS → Bool
  dummy_pos : Fin DUMMY_BITS

/-- Which strategy the `self._specify_task` slot currently holds. -/
inductive Mode
  | curri
  | eval

/-- A dictionary from achievement names to counts
(`self._player.achievements` and its snapshots), as an association list whose
first matching entry is the dictionary entry. -/
abbrev AchMap := List (String × ℕ)

/-- Dictionary access `d[k]`: `none` models Python's `KeyError`. -/
def alookup (k : String) : AchMap → Option ℕ
  | [] => none
  | (k', v) :: rest => if k' = k then some v else alookup k rest

/-- Dictionary update `d[k] += 1` on the first entry holding `k`.  A missing
key raises `KeyError` in the source; here it leaves the list unchanged, and
every theorem below that depends on this update supplies the key's presence. -/
def bumpA (k : String) : List (String × ℕ) → List (String × ℕ)
  | [] => []
  | (k', v) :: rest => if k' = k then (k', v + 1) :: rest else (k', v) :: bumpA k rest

/-- Counter-dictionary update `d[k] += 1` for the mappings modelled as total
functions. -/
def bumpF (k : String) (f : String → ℕ) : String → ℕ :=
  fun x => if x = k then f x + 1 else f x

/-- The mutable state of `Env` that the task engine owns: the active task
(`task_idx`, `task_enc`, `task_steps`, `task_progress`), the per-episode
bookkeeping (`past_achievements`, `follow_achievements`, `given_achievements`,
`self._unlocked`), the selector slot (`mode`) and the evaluation cursor
(`eval_task_seq`, `eval_id`). -/
structure State where
  mode : Mode
  task_idx : ℕ
  task_enc : List Bool
  task_steps : ℕ
  task_progress : ℚ
  past_achievements : AchMap
  follow_achievements : String → ℕ
  given_achievements : List (String × ℕ)
  unlocked : List String
  eval_task_seq : List ℕ
  eval_id : ℕ

/-! ## Task encoder / decoder -/

/-- The method `_encode_task`.  Mirrors the source exactly: although the method takes a
`task_idx` argument, its body branches on and indexes with `self.task_idx`,
the state field.  For a real task the encoding is the bag-of-words indicator
of the surface descriptor's tokens over `ENC_ORDER`, padded with `DUMMY_BITS`
zeros; for a decoy it is the drawn random trailing bits with the bit at the
drawn position (`encoding[-rdn_idx-1] = 1`) forced to one, after a zero
vocabulary prefix. -/
def _encode_task (cfg : Config) (s : State) (r : Draw) (task_idx : ℕ) : List Bool :=
  if s.task_idx < cfg.target_achievements.length then
    let task := cfg.target_achievements.getD s.task_idx ""
    let task_words := pySplit task
    cfg.enc_order.map (fun word => task_words.contains word) ++
      List.replicate DUMMY_BITS false
  else
    let dummy_enc := (List.ofFn r.dummy_bits).set (DUMMY_BITS - 1 - (r.dummy_pos : ℕ)) true
    List.replicate cfg.enc_order.length false ++ dummy_enc

/-- The word-reconstruction loop of `_decode_task`
(`[ENC_ORDER[int(i)] for i, c in enumerate(task_enc) if c]`), pairing the
encoding positions with the vocabulary.  A set bit at a position beyond the
vocabulary would raise `IndexError` in the source; here it is dropped — that
point is unreachable from the branch that uses this loop, whose trailing block
is all clear. -/
def decodeWords : List Bool → List String → List String
  | [], _ => []
  | _ :: bs, [] => decodeWords bs []
  | b :: bs, w :: ws => if b then w :: decodeWords bs ws else decodeWords bs ws

/-- The method `_decode_task`: if any of the trailing `DUMMY_BITS` positions is set,
report the decoy sentinel without inspecting the rest; otherwise join the
vocabulary words whose bit is set, in vocabulary order. -/
def _decode_task (cfg : Config) (task_enc : List Bool) : String :=
  if (task_enc.drop (task_enc.length - DUMMY_BITS)).any (fun b => b) then "dummy task"
  else pyJoin " " (decodeWords task_enc cfg.enc_order)

/-! ## Task selector -/

/-- The shuffle `np.random.shuffle`, modelled as applying the chosen permutation `p` of
positions: entry `i` of the shuffled list is the old list read at `p[i]`. -/
def applyPerm (p : List ℕ) (l : List ℕ) : List ℕ := p.map (fun i => l.getD i 0)

/-- The selector `_specify_curri_task`: draw the next index uniformly from
`[0, len + DUMMY_TASKS)` (the drawn value is `r.curri_idx`), zero
`task_steps`, and recompute `task_enc` (the argument passed to `_encode_task`
is the freshly assigned `self.task_idx`). -/
def _specify_curri_task (cfg : Config) (r : Draw) (s : State) : State :=
  let s1 := { s with task_idx := r.curri_idx, task_steps := 0 }
  { s1 with task_enc := _encode_task cfg s1 r s1.task_idx }

/-- The selector `_specify_eval_task`: consume `eval_task_seq[eval_id]`, advance the
cursor, and when the cursor reaches the end wrap it (`eval_id %= len`) and
reshuffle the sequence; then zero `task_steps` and recompute `task_enc`.
(The source's out-of-range access raises `IndexError`; `getD` returns a junk
value instead, unreachable while the cursor invariant `eval_id < len`
holds.) -/
def _specify_eval_task (cfg : Config) (r : Draw) (s : State) : State :=
  let idx := s.eval_task_seq.getD s.eval_id 0
  let id1 := s.eval_id + 1
  let s1 :=
    if cfg.target_achievements.length ≤ id1 then
      { s with task_idx := idx, task_steps := 0,
               eval_id := id1 % cfg.target_achievements.length,
               eval_task_seq := applyPerm r.shuffle s.eval_task_seq }
    else
      { s with task_idx := idx, task_steps := 0, eval_id := id1 }
  { s1 with task_enc := _encode_task cfg s1 r s1.task_idx }

/-- The `self._specify_task` slot: whichever strategy `set_curriculum`
installed last. -/
def _specify_task (cfg : Config) (r : Draw) (s : State) : State :=
  match s.mode with
  | Mode.curri => _specify_curri_task cfg r s
  | Mode.eval => _specify_eval_task cfg r s

/-- The method `set_curriculum`: select the curriculum strategy for training, or install
the evaluation strategy with a freshly shuffled permutation of the real-task
indices (`np.arange(len)` shuffled) and the cursor at 0. -/
def set_curriculum (cfg : Config) (r : Draw) (train : Bool) (s : State) : State :=
  if train then { s with mode := Mode.curri }
  else { s with mode := Mode.eval,
                eval_task_seq := applyPerm r.shuffle
                  (List.range cfg.target_achievements.length),
                eval_id := 0 }

/-! ## Reward & progress state machine -/

/-- The method `update_given_ach`: increment `given_achievements` at the key of the
currently active slot — the surface descriptor for a real task, `f'dummy{i}'`
for decoy slot `i`. -/
def update_given_ach (cfg : Config) (s : State) : State :=
  if s.task_idx < cfg.target_achievements.length then
    { s with given_achievements :=
        bumpA (cfg.target_achievements.getD s.task_idx "") s.given_achievements }
  else
    { s with given_achievements :=
        (bumpA ("dummy" ++ toString (s.task_idx - cfg.target_achievements.length))
          s.given_achievements) }

/-- The `given_achievements` key of a slot index: the surface descriptor for a
real task, `dummy{i}` for decoy slot `i`. -/
def slotKey (cfg : Config) (idx : ℕ) : String :=
  if idx < cfg.target_achievements.length then cfg.target_achievements.getD idx ""
  else "dummy" ++ toString (idx - cfg.target_achievements.length)

/-- The task-resolution block shared by the two success paths of `_get_reward`:
`self.follow_achievements[task_desc] += 1; self._specify_task();
self.update_given_ach(); self.task_progress = 0`. -/
def resolveTask (cfg : Config) (r : Draw) (task_desc : String) (s : State) : State :=
  let s1 := { s with follow_achievements := bumpF task_desc s.follow_achievements }
  let s2 := update_given_ach cfg (_specify_task cfg r s1)
  { s2 with task_progress := 0 }

/-- The abandonment block of `_get_reward`: `self._specify_task();
self.update_given_ach(); self.task_progress = 0`. -/
def timeoutUpdate (cfg : Config) (r : Draw) (s : State) : State :=
  let s2 := update_given_ach cfg (_specify_task cfg r s)
  { s2 with task_progress := 0 }

/-- The `if task_failed:` tail of `_get_reward`: bump `task_steps` and, past
300 steps, abandon the task. -/
def failTail (cfg : Config) (r : Draw) (s : State) : State :=
  let s1 := { s with task_steps := s.task_steps + 1 }
  if 300 < s1.task_steps then timeoutUpdate cfg r s1 else s1

/-- The newly-unlocked bookkeeping prefix of `_get_reward`
(`unlocked = {name for name, count in ...}; self._unlocked |= unlocked`),
with the set modelled as an append-only list. -/
def unlockedUpd (s0 : State) (ach : AchMap) : List String :=
  s0.unlocked ++
    (ach.filter (fun p => decide (0 < p.2) && !(s0.unlocked.contains p.1))).map Prod.fst

/-- The method `_get_reward`, the per-step reward state machine, invoked after the
external simulation advanced and updated `self._player.achievements` (the
`ach` argument).  A dictionary access that raises `KeyError` in Python
surfaces as `Except.error`.  The result is the step's reward together with the
updated state; the unconditional final
`self.past_achievements = self._player.achievements.copy()` is folded into
every normal return.  (The `sub_taskdesc` local of the source is dead code and
not modelled.) -/
def _get_reward (cfg : Config) (r : Draw) (ach : AchMap) (s0 : State) :
    Except Unit (ℚ × State) :=
  let s := { s0 with unlocked := unlockedUpd s0 ach }
  if s.task_idx < cfg.target_achievements.length then
    let task_desc := cfg.target_achievements.getD s.task_idx ""
    let btask_desc := cfg.target_achievements_base.getD s.task_idx ""
    let task_words := pySplit task_desc
    let btask_words := pySplit btask_desc
    if cfg.isreptask.getD s.task_idx false then
      let sub_btaskdesc := pyJoin "_" btask_words.dropLast
      match alookup sub_btaskdesc ach, alookup sub_btaskdesc s.past_achievements with
      | some a, some p =>
        if p < a then
          match tokToNat (task_words.getLastD "") with
          | none => Except.error ()
          | some n =>
            if n = 0 then Except.error ()
            else
              let s1 := { s with task_progress :=
                            (fadd s.task_progress (fdiv 1 ((n : ℕ) : ℚ))) }
              if 1 ≤ s1.task_progress then
                Except.ok (1, { resolveTask cfg r task_desc s1 with
                                  past_achievements := ach })
              else
                Except.ok (0, { failTail cfg r s1 with past_achievements := ach })
        else
          if 1 ≤ s.task_progress then
            Except.ok (1, { resolveTask cfg r task_desc s with
                              past_achievements := ach })
          else
            Except.ok (0, { failTail cfg r s with past_achievements := ach })
      | _, _ => Except.error ()
    else
      match alookup btask_desc ach, alookup btask_desc s.past_achievements with
      | some a, some p =>
        if p < a then
          Except.ok (1, { resolveTask cfg r task_desc s with
                            past_achievements := ach })
        else
          Except.ok (0, { failTail cfg r s with past_achievements := ach })
      | _, _ => Except.error ()
  else
    Except.ok (0, { failTail cfg r s with past_achievements := ach })

/-! ## Episode session -/

/-- The task-state part of `reset`: reinitialize the per-episode bookkeeping
(the world regeneration, inventory carry-over and rendering belong to the
external simulation and carry no task state), seed the first task through the
installed selector, record its `given_achievements` increment, and zero
`task_progress`.  `ach0` is the freshly reset player's achievements mapping. -/
def reset (cfg : Config) (r : Draw) (ach0 : AchMap) (s : State) : State :=
  let s1 := { s with
    unlocked := [],
    past_achievements := ach0,
    follow_achievements := fun _ => 0,
    given_achievements :=
      cfg.target_achievements.map (fun k => (k, 0)) ++
        (List.range DUMMY_TASKS).map (fun i => ("dummy" ++ toString i, 0)) }
  let s2 := update_given_ach cfg (_specify_task cfg r s1)
  { s2 with task_progress := 0 }

/-! ## Iterated runs and observers -/

/-- Iterate `_get_reward` over a list of per-step inputs (the step's drawn
randomness and the achievements mapping as the simulation left it),
collecting the per-step rewards. -/
def runRewards (cfg : Config) : List (Draw × AchMap) → State → Except Unit (List ℚ × State)
  | [], s => Except.ok ([], s)
  | (r, ach) :: rest, s =>
    match _get_reward cfg r ach s with
    | Except.error e => Except.error e
    | Except.ok (rw, s') =>
      match runRewards cfg rest s' with
      | Except.error e => Except.error e
      | Except.ok (rws, sF) => Except.ok (rw :: rws, sF)

/-- The reward trace of a run, when no step raised. -/
def rewardsOf (e : Except Unit (List ℚ × State)) : Option (List ℚ) :=
  match e with
  | Except.ok (rws, _) => some rws
  | Except.error _ => none

/-- The final state of a run, when no step raised. -/
def finalStateOf (e : Except Unit (List ℚ × State)) : Option State :=
  match e with
  | Except.ok (_, sF) => some sF
  | Except.error _ => none

/-- Repeated invocations of the evaluation selector, collecting the selected
task indices. -/
def selRun (cfg : Config) : List Draw → State → List ℕ × State
  | [], s => ([], s)
  | r :: rs, s =>
    let s' := _specify_eval_task cfg r s
    let (out, sF) := selRun cfg rs s'
    (s'.task_idx :: out, sF)

/-- Total of all `given_achievements` counters. -/
def givenSum (l : List (String × ℕ)) : ℕ := (l.map Prod.snd).sum

instance : Inhabited Draw := ⟨⟨0, [], fun _ => false, ⟨0, by decide⟩⟩⟩

/-- The index the installed selector would assign from state `s` with drawn
randomness `r`: the curriculum draw itself, or the entry under the evaluation
cursor.  (`_specify_task` assigns exactly this index; see
`specify_task_idx`.) -/
def selIdx (cfg : Config) (r : Draw) (s : State) : ℕ :=
  match s.mode with
  | Mode.curri => r.curri_idx
  | Mode.eval => s.eval_task_seq.getD s.eval_id 0

/-- The achievement key whose delta `_get_reward` watches for slot `idx`:
the base descriptor with the trailing repeat-count token stripped for a
repeat task, the base descriptor itself otherwise. -/
def rewardKey (cfg : Config) (idx : ℕ) : String :=
  if cfg.isreptask.getD idx false then
    pyJoin "_" (pySplit (cfg.target_achievements_base.getD idx "")).dropLast
  else cfg.target_achievements_base.getD idx ""

/-- The result of `k` accumulations of the rounded `1/N` on top of `p`, exactly as the
repeat branch performs them (`self.task_progress += 1.0 / float(N)`). -/
def fiter (N : ℕ) (p : ℚ) : ℕ → ℚ
  | 0 => p
  | k + 1 => fadd (fiter N p k) (fdiv 1 ((N : ℕ) : ℚ))

/-- Does the achievement count under `key` exist and strictly increase at
every step of the input trace, starting from count `prev`? -/
def increasingOnB (key : String) (prev : ℕ) : List (Draw × AchMap) → Bool
  | [] => true
  | (_, ach) :: rest =>
    match alookup key ach with
    | none => false
    | some c => decide (prev < c) && increasingOnB key c rest

/-- The achievement count under `key` after the trace (its value in the last
step's mapping, or `c0` for the empty trace). -/
def lastCount (key : String) (c0 : ℕ) : List (Draw × AchMap) → ℕ
  | [] => c0
  | (_, ach) :: rest => lastCount key ((alookup key ach).getD 0) rest

/-- Number of steps of a run whose `_get_reward` call changed
`given_achievements` — i.e. the number of task reassignments the run
performed (`none` if a step raised). -/
def runGivenChanges (cfg : Config) : List (Draw × AchMap) → State → Option ℕ
  | [], _ => some 0
  | (r, ach) :: rest, s =>
    match _get_reward cfg r ach s with
    | Except.error _ => none
    | Except.ok (_, s') =>
      (runGivenChanges cfg rest s').map
        (fun m => m + (if s'.given_achievements = s.given_achievements then 0 else 1))

/-- Is the key of every slot the run's selector could assign present in the
`given_achievements` dictionary at the moment of assignment (so that the
source's `given_achievements[...] += 1` cannot raise)? -/
def presAllB (cfg : Config) : List (Draw × AchMap) → State → Bool
  | [], _ => true
  | (r, ach) :: rest, s =>
    decide (slotKey cfg (selIdx cfg r s) ∈ s.given_achievements.map Prod.fst) &&
      (match _get_reward cfg r ach s with
       | Except.error _ => true
       | Except.ok (_, s') => presAllB cfg rest s')

/-- Did the call return normally (no `KeyError`)? -/
def isOkB {α : Type} : Except Unit α → Bool
  | Except.ok _ => true
  | Except.error _ => false

/-- The reward returned by a normal `_get_reward` call (junk on error). -/
def stepReward (e : Except Unit (ℚ × State)) : ℚ :=
  match e with
  | Except.ok (rw, _) => rw
  | Except.error _ => 0

/-- The state returned by a normal `_get_reward` call (`dflt` on error). -/
def stepState (e : Except Unit (ℚ × State)) (dflt : State) : State :=
  match e with
  | Except.ok (_, s') => s'
  | Except.error _ => dflt

/-- The final state of a run (the initial state if a step raised). -/
def runFinal (cfg : Config) (inputs : List (Draw × AchMap)) (s : State) : State :=
  (finalStateOf (runRewards cfg inputs s)).getD s

/-! ## Concrete fixtures

Small instantiations used by the closed counterexample theorems and the
witnesses below.  Repeat counts in the source are `10` for `collect` tasks and
`5` for all others (`counts = [10 if 'collect' in ach else 5 ...]`), so both
values appear. -/

/-- A drawn-randomness record whose curriculum draw is slot 0. -/
def d0 : Draw := ⟨0, [], fun _ => false, ⟨0, by decide⟩⟩

/-- A draw carrying the identity shuffle of two elements. -/
def dId : Draw := ⟨0, [0, 1], fun _ => false, ⟨0, by decide⟩⟩

/-- A draw carrying the transposition shuffle of two elements. -/
def dSwap : Draw := ⟨0, [1, 0], fun _ => false, ⟨0, by decide⟩⟩

/-- A draw whose decoy bits are all zero and whose forced position is 3. -/
def dDum : Draw := ⟨0, [], fun _ => false, ⟨3, by decide⟩⟩

/-- A one-task vocabulary holding the repeat task `collect_wood_10`
(repeat count 10, as the source assigns to every `collect` achievement). -/
def cfgRep10 : Config := ⟨[], ["collect_wood_10"], ["collect_wood_10"], [true]⟩

/-- Post-assignment state pursuing `collect_wood_10` with zero progress. -/
def sRep10 : State :=
  ⟨Mode.curri, 0, [], 0, 0, [("collect_wood", 0)], fun _ => 0,
    [("collect_wood_10", 1)], [], [], 0⟩

/-- A trace of `n` steps whose `collect_wood` count rises by one every step. -/
def inRep10 (n : ℕ) : List (Draw × AchMap) :=
  (List.range n).map (fun t => (d0, [("collect_wood", t + 1)]))

/-- A one-task vocabulary holding the repeat task `place_stone_5`
(repeat count 5, as the source assigns to non-`collect` achievements). -/
def cfgRep5 : Config := ⟨[], ["place_stone_5"], ["place_stone_5"], [true]⟩

/-- Post-assignment state pursuing `place_stone_5` with zero progress. -/
def sRep5 : State :=
  ⟨Mode.curri, 0, [], 0, 0, [("place_stone", 0)], fun _ => 0,
    [("place_stone_5", 1)], [], [], 0⟩

/-- A trace of `n` steps whose `place_stone` count rises by one every step. -/
def inRep5 (n : ℕ) : List (Draw × AchMap) :=
  (List.range n).map (fun t => (d0, [("place_stone", t + 1)]))

/-- A one-task vocabulary holding the non-repeat task `place_table`. -/
def cfgPT : Config := ⟨[], ["place_table"], ["place_table"], [false]⟩

/-- Post-assignment state pursuing `place_table`. -/
def sPT : State :=
  ⟨Mode.curri, 0, [], 0, 0, [("place_table", 0)], fun _ => 0,
    [("place_table", 1)], [], [], 0⟩

/-- A trace of `n` steps during which the `place_table` count never moves. -/
def inPT (n : ℕ) : List (Draw × AchMap) :=
  List.replicate n (d0, [("place_table", 0)])

/-- A two-real-task vocabulary for exercising the evaluation cursor. -/
def cfgAB : Config := ⟨[], ["a", "b"], ["a", "b"], [false, false]⟩

/-- A neutral state from which `set_curriculum` installs evaluation mode. -/
def sAB : State :=
  ⟨Mode.curri, 0, [], 0, 0, [("a", 0), ("b", 0)], fun _ => 0,
    [("a", 1), ("b", 0)], [], [], 0⟩

/-- A three-word vocabulary with one real task `collect_wood`, for the
encoder/decoder witnesses. -/
def cfgEnc : Config := ⟨["collect", "wood", "place"], ["collect_wood"], ["collect_wood"], [false]⟩

/-- State whose active slot is the real task 0 of `cfgEnc`. -/
def sEncReal : State :=
  ⟨Mode.curri, 0, [], 0, 0, [("collect_wood", 0)], fun _ => 0, [("collect_wood", 1)], [], [], 0⟩

/-- State whose active slot is a decoy slot of `cfgEnc`. -/
def sEncDum : State :=
  ⟨Mode.curri, 1, [], 0, 0, [("collect_wood", 0)], fun _ => 0, [("collect_wood", 1)], [], [], 0⟩

/-! ## Structure lemmas -/

theorem specify_task_idx (cfg : Config) (r : Draw) (s : State) :
    (_specify_task cfg r s).task_idx = selIdx cfg r s := by
  cases hm : s.mode <;>
    simp only [_specify_task, _specify_curri_task, _specify_eval_task, selIdx, hm] <;>
    split <;> rfl

theorem specify_given (cfg : Config) (r : Draw) (s : State) :
    (_specify_task cfg r s).given_achievements = s.given_achievements := by
  cases hm : s.mode <;>
    simp only [_specify_task, _specify_curri_task, _specify_eval_task, hm] <;>
    split <;> rfl

theorem specify_follow (cfg : Config) (r : Draw) (s : State) :
    (_specify_task cfg r s).follow_achievements = s.follow_achievements := by
  cases hm : s.mode <;>
    simp only [_specify_task, _specify_curri_task, _specify_eval_task, hm] <;>
    split <;> rfl

theorem specify_steps (cfg : Config) (r : Draw) (s : State) :
    (_specify_task cfg r s).task_steps = 0 := by
  cases hm : s.mode <;>
    simp only [_specify_task, _specify_curri_task, _specify_eval_task, hm] <;>
    split <;> rfl

theorem update_given_ach_eq (cfg : Config) (s : State) :
    update_given_ach cfg s =
      { s with given_achievements := bumpA (slotKey cfg s.task_idx) s.given_achievements } := by
  unfold update_given_ach slotKey
  split <;> rfl

theorem alookup_bumpA_self (k : String) (l : List (String × ℕ)) :
    alookup k (bumpA k l) = (alookup k l).map (fun v => v + 1) := by
  induction l with
  | nil => rfl
  | cons p rest ih =>
    obtain ⟨k', v⟩ := p
    by_cases h : k' = k <;> simp [bumpA, alookup, h, ih]

theorem alookup_mem (k : String) (l : List (String × ℕ))
    (h : k ∈ l.map Prod.fst) : ∃ v, alookup k l = some v := by
  induction l with
  | nil => simp at h
  | cons p rest ih =>
    obtain ⟨k', v⟩ := p
    by_cases h' : k' = k
    · exact ⟨v, by simp [alookup, h']⟩
    · simp only [List.map_cons, List.mem_cons] at h
      rcases h with h | h
      · exact absurd h.symm h'
      · obtain ⟨w, hw⟩ := ih h
        exact ⟨w, by simp [alookup, h', hw]⟩

theorem alookup_bumpA_ne (k k2 : String) (l : List (String × ℕ)) (h : k2 ≠ k) :
    alookup k2 (bumpA k l) = alookup k2 l := by
  induction l with
  | nil => rfl
  | cons p rest ih =>
    obtain ⟨k', v⟩ := p
    by_cases h' : k' = k
    · subst h'
      simp [bumpA, alookup, Ne.symm h]
    · simp only [bumpA, if_neg h']
      by_cases h'' : k' = k2 <;> simp [alookup, h'', ih]

theorem givenSum_bumpA (k : String) (l : List (String × ℕ))
    (h : k ∈ l.map Prod.fst) : givenSum (bumpA k l) = givenSum l + 1 := by
  induction l with
  | nil => simp at h
  | cons p rest ih =>
    obtain ⟨k', v⟩ := p
    by_cases h' : k' = k
    · simp only [bumpA, if_pos h', givenSum, List.map_cons, List.sum_cons]
      omega
    · simp only [List.map_cons, List.mem_cons] at h
      rcases h with h | h
      · exact absurd h.symm h'
      · have ih' := ih h
        simp only [bumpA, if_neg h', givenSum, List.map_cons, List.sum_cons] at ih' ⊢
        omega

theorem bumpA_ne_self (k : String) (l : List (String × ℕ))
    (h : k ∈ l.map Prod.fst) : bumpA k l ≠ l := by
  intro he
  have h1 := alookup_bumpA_self k l
  rw [he] at h1
  obtain ⟨v, hv⟩ := alookup_mem k l h
  rw [hv] at h1
  simp at h1

/-! ## Claims -/

/-- Claim C10.  `_encode_task` ignores its `task_idx` argument entirely: the
body branches on and indexes with the state's own `self.task_idx`, so calls
with different arguments but identical state (and identical drawn randomness)
behave identically. -/
theorem C10_encode_ignores_argument (cfg : Config) (s : State) (r : Draw) (i j : ℕ) :
    _encode_task cfg s r i = _encode_task cfg s r j := rfl

/-- Claim C6.  Whenever `_get_reward` returns normally, the per-step reward is
exactly `0` or exactly `1` — never fractional, never negative, and never more
than `1` even when several achievement deltas land in the same step. -/
theorem C6_reward_zero_or_one (cfg : Config) (r : Draw) (ach : AchMap) (s : State)
    (h : isOkB (_get_reward cfg r ach s) = true) :
    stepReward (_get_reward cfg r ach s) = 0 ∨ stepReward (_get_reward cfg r ach s) = 1 := by
  cases he : _get_reward cfg r ach s with
  | error e => rw [he] at h; simp [isOkB] at h
  | ok p =>
    obtain ⟨rw, s'⟩ := p
    simp only [stepReward]
    simp only [_get_reward] at he
    repeat' split at he
    all_goals
      first
      | exact Except.noConfusion he
      | (injection he with he1; injection he1 with hrw hst; subst hrw; simp)

/-- Witness for C6: a concrete no-event step of the `place_table`
environment, whose reward is `0` or `1` by the theorem. -/
theorem C6_witness :
    stepReward (_get_reward cfgPT d0 [("place_table", 0)] sPT) = 0 ∨
      stepReward (_get_reward cfgPT d0 [("place_table", 0)] sPT) = 1 :=
  C6_reward_zero_or_one cfgPT d0 [("place_table", 0)] sPT (by decide)

/-- Claim C9.  Whenever `_get_reward` returns normally — on success, timeout and
no-event paths alike — the returned state's `past_achievements` snapshot is
exactly the achievements mapping the step was evaluated against, so the next
step's delta detection compares against the snapshot taken at the end of this
step, even across a task reassignment within the step. -/
theorem C9_snapshot_unconditional (cfg : Config) (r : Draw) (ach : AchMap) (s : State)
    (h : isOkB (_get_reward cfg r ach s) = true) :
    (stepState (_get_reward cfg r ach s) s).past_achievements = ach := by
  cases he : _get_reward cfg r ach s with
  | error e => rw [he] at h; simp [isOkB] at h
  | ok p =>
    obtain ⟨rw, s'⟩ := p
    simp only [stepState]
    simp only [_get_reward] at he
    repeat' split at he
    all_goals
      first
      | exact Except.noConfusion he
      | (injection he with he1; injection he1 with hrw hst; subst hst; simp)

/-- Witness for C9: the same concrete step, whose resulting snapshot is the
step's achievements mapping by the theorem. -/
theorem C9_witness :
    (stepState (_get_reward cfgPT d0 [("place_table", 0)] sPT) sPT).past_achievements =
      [("place_table", 0)] :=
  C9_snapshot_unconditional cfgPT d0 [("place_table", 0)] sPT (by decide)

/-- Claim C7.  If the watched achievement key of the active real task — the
stripped sub-base descriptor for a repeat task, the base descriptor otherwise
— is missing from the current achievements mapping or from the snapshot, the
per-step reward computation raises (`KeyError` in the source, `Except.error`
here) instead of silently treating the delta as zero. -/
theorem C7_missing_key_error (cfg : Config) (r : Draw) (ach : AchMap) (s : State)
    (hidx : s.task_idx < cfg.target_achievements.length)
    (hmiss : alookup (rewardKey cfg s.task_idx) ach = none ∨
      alookup (rewardKey cfg s.task_idx) s.past_achievements = none) :
    _get_reward cfg r ach s = Except.error () := by
  by_cases hrep : cfg.isreptask.getD s.task_idx false = true
  · simp only [rewardKey, if_pos hrep] at hmiss
    simp only [_get_reward, hidx, if_true, hrep]
    rcases hmiss with hm | hm
    · rw [hm]
    · cases ha : alookup
          (pyJoin "_" (pySplit (cfg.target_achievements_base.getD s.task_idx "")).dropLast) ach
      · rfl
      · rw [hm]
  · simp only [rewardKey, if_neg hrep] at hmiss
    simp only [_get_reward, hidx, if_true, hrep, Bool.false_eq_true, if_false]
    rcases hmiss with hm | hm
    · rw [hm]
    · cases ha : alookup (cfg.target_achievements_base.getD s.task_idx "") ach
      · rfl
      · rw [hm]

/-- Witness for C7: pursuing `place_table` while the achievements mapping is
empty raises. -/
theorem C7_witness : _get_reward cfgPT d0 [] sPT = Except.error () :=
  C7_missing_key_error cfgPT d0 [] sPT (by decide) (Or.inl (by decide))

theorem decodeWords_nil (bs : List Bool) : decodeWords bs [] = [] := by
  induction bs with
  | nil => rfl
  | cons b bs ih => simp [decodeWords, ih]

theorem decodeWords_map (f : String → Bool) (ws : List String) (t : List Bool) :
    decodeWords (ws.map f ++ t) ws = ws.filter f := by
  induction ws with
  | nil => exact decodeWords_nil t
  | cons w ws ih =>
    simp only [List.map_cons, List.cons_append, decodeWords]
    cases hf : f w <;> simp [List.filter_cons, hf, ih]

/-- The trailing `DUMMY_BITS` slice of the decoy block contains a set bit (the
forced `encoding[-rdn_idx-1] = 1`). -/
theorem dummy_block_has_true (r : Draw) :
    ∃ b ∈ (List.ofFn r.dummy_bits).set (DUMMY_BITS - 1 - (r.dummy_pos : ℕ)) true, b = true := by
  have hlen : DUMMY_BITS - 1 - (r.dummy_pos : ℕ) <
      ((List.ofFn r.dummy_bits).set (DUMMY_BITS - 1 - (r.dummy_pos : ℕ)) true).length := by
    simp only [List.length_set, List.length_ofFn]
    have : (0 : ℕ) < DUMMY_BITS := by decide
    omega
  refine ⟨_, List.getElem_mem hlen, ?_⟩
  exact List.getElem_set_self hlen

/-- Claim C4.  For every real task slot, the encoding's trailing `DUMMY_BITS`
positions are all zero; for every decoy slot, all leading vocabulary-word
positions are zero and at least one trailing position is set — the two
encoding subspaces are disjoint. -/
theorem C4_encoding_subspaces (cfg : Config) (s : State) (r : Draw) :
    (s.task_idx < cfg.target_achievements.length →
      ∀ b ∈ (_encode_task cfg s r s.task_idx).drop cfg.enc_order.length, b = false) ∧
    (cfg.target_achievements.length ≤ s.task_idx →
      (∀ b ∈ (_encode_task cfg s r s.task_idx).take cfg.enc_order.length, b = false) ∧
      ∃ b ∈ (_encode_task cfg s r s.task_idx).drop cfg.enc_order.length, b = true) := by
  constructor
  · intro hidx
    simp only [_encode_task, if_pos hidx]
    rw [List.drop_left' (by simp)]
    intro b hb
    exact List.eq_of_mem_replicate hb
  · intro hidx
    have hnot : ¬s.task_idx < cfg.target_achievements.length := not_lt.mpr hidx
    simp only [_encode_task, if_neg hnot]
    constructor
    · rw [List.take_left' (by simp)]
      intro b hb
      exact List.eq_of_mem_replicate hb
    · rw [List.drop_left' (by simp)]
      exact dummy_block_has_true r

/-- Witness for C4: the real slot of `cfgEnc` has a clear trailing block; its
decoy slot has a clear vocabulary block and a set trailing bit. -/
theorem C4_witness :
    (∀ b ∈ (_encode_task cfgEnc sEncReal dDum sEncReal.task_idx).drop cfgEnc.enc_order.length,
      b = false) ∧
    (∀ b ∈ (_encode_task cfgEnc sEncDum dDum sEncDum.task_idx).take cfgEnc.enc_order.length,
      b = false) ∧
    ∃ b ∈ (_encode_task cfgEnc sEncDum dDum sEncDum.task_idx).drop cfgEnc.enc_order.length,
      b = true :=
  ⟨(C4_encoding_subspaces cfgEnc sEncReal dDum).1 (by decide),
   (C4_encoding_subspaces cfgEnc sEncDum dDum).2 (by decide)⟩

/-- Claim C5.  Decoding the encoding of the active real task yields exactly the
space-joined list of the vocabulary words that occur among the
underscore-separated tokens of its surface descriptor, in vocabulary order
(hence, in particular, a string containing every such word); decoding the
encoding of a decoy slot yields exactly the sentinel `"dummy task"`. -/
theorem C5_decode_encode (cfg : Config) (s : State) (r : Draw) :
    (s.task_idx < cfg.target_achievements.length →
      _decode_task cfg (_encode_task cfg s r s.task_idx) =
        pyJoin " " (cfg.enc_order.filter
          (fun w => (pySplit (cfg.target_achievements.getD s.task_idx "")).contains w))) ∧
    (cfg.target_achievements.length ≤ s.task_idx →
      _decode_task cfg (_encode_task cfg s r s.task_idx) = "dummy task") := by
  constructor
  · intro hidx
    simp only [_encode_task, if_pos hidx, _decode_task]
    rw [show (cfg.enc_order.map
        (fun word => (pySplit (cfg.target_achievements.getD s.task_idx "")).contains word) ++
        List.replicate DUMMY_BITS false).length - DUMMY_BITS = cfg.enc_order.length by
      simp]
    rw [List.drop_left' (by simp)]
    have hany : (List.replicate DUMMY_BITS false).any (fun b => b) = false := by
      simp
    rw [hany]
    simp only [Bool.false_eq_true, if_false]
    rw [decodeWords_map]
  · intro hidx
    have hnot : ¬s.task_idx < cfg.target_achievements.length := not_lt.mpr hidx
    simp only [_encode_task, if_neg hnot, _decode_task]
    rw [show (List.replicate cfg.enc_order.length false ++
        (List.ofFn r.dummy_bits).set (DUMMY_BITS - 1 - (r.dummy_pos : ℕ)) true).length -
          DUMMY_BITS = cfg.enc_order.length by simp [DUMMY_BITS]]
    rw [List.drop_left' (by simp)]
    obtain ⟨b, hb, hbt⟩ := dummy_block_has_true r
    have : ((List.ofFn r.dummy_bits).set (DUMMY_BITS - 1 - (r.dummy_pos : ℕ)) true).any
        (fun b => b) = true := List.any_eq_true.mpr ⟨b, hb, by simp [hbt]⟩
    rw [this]
    rfl

/-- Witness for C5: decoding the real slot of `cfgEnc` reconstructs
`"collect wood"`; decoding its decoy slot reports `"dummy task"`. -/
theorem C5_witness :
    _decode_task cfgEnc (_encode_task cfgEnc sEncReal dDum sEncReal.task_idx) =
      pyJoin " " (cfgEnc.enc_order.filter
        (fun w => (pySplit (cfgEnc.target_achievements.getD sEncReal.task_idx "")).contains w)) ∧
    _decode_task cfgEnc (_encode_task cfgEnc sEncDum dDum sEncDum.task_idx) = "dummy task" :=
  ⟨(C5_decode_encode cfgEnc sEncReal dDum).1 (by decide),
   (C5_decode_encode cfgEnc sEncDum dDum).2 (by decide)⟩

/-- Claim C1, counterexample.  The repeat task `collect_wood_10` (repeat count
N = 10, the count the source assigns to every `collect` achievement) receives
ten consecutive qualifying achievement deltas and the reward does *not* fire
on the tenth: all ten rewards are `0`, because the accumulated progress is the
binary64 sum of ten copies of `fl(1/10)`, which is
`9007199254740991/9007199254740992 < 1`.  (The reward fires on the eleventh
delta; see the amended theorem.) -/
theorem C1_counterexample :
    rewardsOf (runRewards cfgRep10 (inRep10 10) sRep10) = some (List.replicate 10 0) ∧
    (finalStateOf (runRewards cfgRep10 (inRep10 10) sRep10)).map
        (fun sF => sF.task_progress) =
      some (mkRat 9007199254740991 9007199254740992) := by
  decide

/-- Claim C2, counterexample.  In evaluation mode over two real tasks, the three
consecutive selector invocations after `set_curriculum(train=False)` can
return `[0, 1, 1]` (the pass-boundary reshuffle drew the transposition), so
the window of `len(realTasks) = 2` consecutive invocations starting at the
second call selects task 1 twice and task 0 never. -/
theorem C2_counterexample :
    (selRun cfgAB [dId, dSwap, dId] (set_curriculum cfgAB dId false sAB)).1 = [0, 1, 1] ∧
    ((selRun cfgAB [dId, dSwap, dId] (set_curriculum cfgAB dId false sAB)).1.drop 1).count 0 = 0 ∧
    ((selRun cfgAB [dId, dSwap, dId] (set_curriculum cfgAB dId false sAB)).1.drop 1).count 1 = 2 := by
  decide

/-- Claim C3, counterexample.  Pursuing the non-repeat task `place_table` with
no qualifying delta for 301 consecutive steps, the engine reassigns at step
301 with zero reward — but the curriculum selector may redraw the very same
slot (`np.random.choice` with replacement), in which case `given_achievements`
for the abandoned task *does* increment again (here from 1 to 2), refuting the
claim's final conjunct; after only 300 such steps it still stands at 1. -/
theorem C3_counterexample :
    rewardsOf (runRewards cfgPT (inPT 301) sPT) = some (List.replicate 301 0) ∧
    (finalStateOf (runRewards cfgPT (inPT 301) sPT)).map
        (fun sF => alookup "place_table" sF.given_achievements) = some (some 2) ∧
    (finalStateOf (runRewards cfgPT (inPT 300) sPT)).map
        (fun sF => alookup "place_table" sF.given_achievements) = some (some 1) ∧
    (finalStateOf (runRewards cfgPT (inPT 301) sPT)).map (fun sF => sF.task_steps) =
      some 0 := by
  decide

theorem eval_task_idx (cfg : Config) (r : Draw) (s : State) :
    (_specify_eval_task cfg r s).task_idx = s.eval_task_seq.getD s.eval_id 0 := by
  simp only [_specify_eval_task]
  split <;> rfl

/-- Within one pass (no intermediate wrap), the evaluation selector returns
exactly the slice of the current permutation under the cursor. -/
theorem selRun_outputs (cfg : Config) (rs : List Draw) :
    ∀ s : State, s.eval_task_seq.length = cfg.target_achievements.length →
      s.eval_id + rs.length ≤ cfg.target_achievements.length →
      (selRun cfg rs s).1 = (s.eval_task_seq.drop s.eval_id).take rs.length := by
  induction rs with
  | nil => intro s h1 h2; simp [selRun]
  | cons r rest ih =>
    intro s h1 h2
    have hidlt : s.eval_id < s.eval_task_seq.length := by
      simp only [List.length_cons] at h2
      omega
    have hgetd : s.eval_task_seq.getD s.eval_id 0 = s.eval_task_seq[s.eval_id] := by
      simp [List.getD_eq_getElem?_getD, List.getElem?_eq_getElem hidlt]
    have hdrop : s.eval_task_seq.drop s.eval_id =
        s.eval_task_seq[s.eval_id] :: s.eval_task_seq.drop (s.eval_id + 1) :=
      List.drop_eq_getElem_cons hidlt
    by_cases hw : cfg.target_achievements.length ≤ s.eval_id + 1
    · have hrest : rest = [] := by
        simp only [List.length_cons] at h2
        have : rest.length = 0 := by omega
        exact List.eq_nil_of_length_eq_zero this
      subst hrest
      simp only [selRun, eval_task_idx, hgetd]
      rw [hdrop]
      rfl
    · have hw' : ¬cfg.target_achievements.length ≤ s.eval_id + 1 := hw
      simp only [selRun]
      have hs' : _specify_eval_task cfg r s =
          { s with task_idx := s.eval_task_seq.getD s.eval_id 0, task_steps := 0,
                   eval_id := s.eval_id + 1,
                   task_enc := _encode_task cfg
                     { s with task_idx := s.eval_task_seq.getD s.eval_id 0, task_steps := 0,
                              eval_id := s.eval_id + 1 } r
                     (s.eval_task_seq.getD s.eval_id 0) } := by
        simp only [_specify_eval_task, if_neg hw']
      rw [hs']
      rw [ih _ (by simpa using h1) (by simp only [List.length_cons] at h2; simpa using by omega)]
      simp only [hgetd]
      rw [hdrop]
      rfl

/-- Claim C2, amended.  Over the `len(realTasks)` consecutive selector
invocations that *start at a pass boundary* (evaluation cursor at 0), every
real task index is selected exactly once: the window returns the current
shuffled permutation itself.  (An arbitrary window of that length can straddle
a reshuffle and repeat indices — see the counterexample.) -/
theorem C2_amended (cfg : Config) (s : State) (rs : List Draw)
    (hid : s.eval_id = 0)
    (hperm : s.eval_task_seq.Perm (List.range cfg.target_achievements.length))
    (hlen : rs.length = cfg.target_achievements.length) :
    ∀ i < cfg.target_achievements.length, ((selRun cfg rs s).1).count i = 1 := by
  have hl : s.eval_task_seq.length = cfg.target_achievements.length := by
    simpa using hperm.length_eq
  have houts : (selRun cfg rs s).1 = s.eval_task_seq := by
    rw [selRun_outputs cfg rs s hl (by omega)]
    rw [hid, List.drop_zero]
    exact List.take_of_length_le (by omega)
  intro i hi
  rw [houts, hperm.count_eq]
  exact List.count_eq_one_of_mem (List.nodup_range _) (List.mem_range.mpr hi)

/-- Witness for the amended C2: a full pass over the two-task vocabulary
selects each of the two task indices exactly once. -/
theorem C2_witness :
    ((selRun cfgAB [dId, dId] (set_curriculum cfgAB dId false sAB)).1).count 0 = 1 ∧
    ((selRun cfgAB [dId, dId] (set_curriculum cfgAB dId false sAB)).1).count 1 = 1 :=
  ⟨C2_amended cfgAB (set_curriculum cfgAB dId false sAB) [dId, dId]
      (by decide) (by decide) (by decide) 0 (by decide),
   C2_amended cfgAB (set_curriculum cfgAB dId false sAB) [dId, dId]
      (by decide) (by decide) (by decide) 1 (by decide)⟩

/-! ## Step lemmas for the reward machine -/

theorem timeoutUpdate_fields (cfg : Config) (r : Draw) (s : State) :
    (timeoutUpdate cfg r s).task_idx = selIdx cfg r s ∧
    (timeoutUpdate cfg r s).task_steps = 0 ∧
    (timeoutUpdate cfg r s).task_progress = 0 ∧
    (timeoutUpdate cfg r s).given_achievements =
      bumpA (slotKey cfg (selIdx cfg r s)) s.given_achievements ∧
    (timeoutUpdate cfg r s).follow_achievements = s.follow_achievements := by
  simp only [timeoutUpdate, update_given_ach_eq, specify_task_idx, specify_steps,
    specify_given, specify_follow, selIdx]
  exact ⟨trivial, trivial, trivial, trivial, trivial⟩

theorem resolveTask_fields (cfg : Config) (r : Draw) (td : String) (s : State) :
    (resolveTask cfg r td s).task_idx = selIdx cfg r s ∧
    (resolveTask cfg r td s).task_steps = 0 ∧
    (resolveTask cfg r td s).task_progress = 0 ∧
    (resolveTask cfg r td s).given_achievements =
      bumpA (slotKey cfg (selIdx cfg r s)) s.given_achievements ∧
    (resolveTask cfg r td s).follow_achievements = bumpF td s.follow_achievements := by
  simp only [resolveTask, update_given_ach_eq, specify_task_idx, specify_steps,
    specify_given, specify_follow, selIdx]
  exact ⟨trivial, trivial, trivial, trivial, trivial⟩

/-- A step of a real task with no qualifying delta and no timeout: reward `0`,
`task_steps` bumped, snapshot refreshed, everything else untouched. -/
theorem step_no_delta (cfg : Config) (r : Draw) (ach : AchMap) (s : State) (c : ℕ)
    (hidx : s.task_idx < cfg.target_achievements.length)
    (ha : alookup (rewardKey cfg s.task_idx) ach = some c)
    (hp : alookup (rewardKey cfg s.task_idx) s.past_achievements = some c)
    (hprog : s.task_progress < 1)
    (hsteps : s.task_steps + 1 ≤ 300) :
    _get_reward cfg r ach s = Except.ok (0,
      { s with task_steps := s.task_steps + 1, past_achievements := ach,
               unlocked := unlockedUpd s ach }) := by
  have h1 : ¬(c < c) := lt_irrefl c
  have h2 : ¬(1 ≤ s.task_progress) := not_le.mpr hprog
  have h3 : ¬(300 < s.task_steps + 1) := by omega
  by_cases hrep : cfg.isreptask.getD s.task_idx false = true
  · simp only [rewardKey, if_pos hrep] at ha hp
    simp only [_get_reward, hidx, if_true, hrep, ha, hp, h1, if_false, h2, failTail, h3]
  · simp only [rewardKey, if_neg hrep] at ha hp
    simp only [_get_reward, hidx, if_true, hrep, Bool.false_eq_true, if_false, ha, hp, h1,
      failTail, h3]

/-- A step of a real task with no qualifying delta when `task_steps` has
already reached 300: the 301st failing step triggers abandonment. -/
theorem step_timeout (cfg : Config) (r : Draw) (ach : AchMap) (s : State) (c : ℕ)
    (hidx : s.task_idx < cfg.target_achievements.length)
    (ha : alookup (rewardKey cfg s.task_idx) ach = some c)
    (hp : alookup (rewardKey cfg s.task_idx) s.past_achievements = some c)
    (hprog : s.task_progress < 1)
    (hsteps : 300 ≤ s.task_steps) :
    _get_reward cfg r ach s = Except.ok (0,
      { timeoutUpdate cfg r
          { s with task_steps := s.task_steps + 1, unlocked := unlockedUpd s ach } with
        past_achievements := ach }) := by
  have h1 : ¬(c < c) := lt_irrefl c
  have h2 : ¬(1 ≤ s.task_progress) := not_le.mpr hprog
  have h3 : 300 < s.task_steps + 1 := by omega
  by_cases hrep : cfg.isreptask.getD s.task_idx false = true
  · simp only [rewardKey, if_pos hrep] at ha hp
    simp only [_get_reward, hidx, if_true, hrep, ha, hp, h1, if_false, h2, failTail, h3,
      if_true]
  · simp only [rewardKey, if_neg hrep] at ha hp
    simp only [_get_reward, hidx, if_true, hrep, Bool.false_eq_true, if_false, ha, hp, h1,
      failTail, h3, if_true]

/-- Iterating `step_no_delta`: a run of failing steps below the threshold only
advances `task_steps` and the snapshot. -/
theorem run_no_delta (cfg : Config) (c : ℕ) (inputs : List (Draw × AchMap)) :
    ∀ s : State,
      s.task_idx < cfg.target_achievements.length →
      s.task_progress < 1 →
      alookup (rewardKey cfg s.task_idx) s.past_achievements = some c →
      (∀ p ∈ inputs, alookup (rewardKey cfg s.task_idx) p.2 = some c) →
      s.task_steps + inputs.length ≤ 300 →
      ∃ u pa, runRewards cfg inputs s = Except.ok (List.replicate inputs.length 0,
          { s with task_steps := s.task_steps + inputs.length, past_achievements := pa,
                   unlocked := u }) ∧
        alookup (rewardKey cfg s.task_idx) pa = some c := by
  induction inputs with
  | nil =>
    intro s h1 h2 h3 h4 h5
    exact ⟨s.unlocked, s.past_achievements, by simp [runRewards], h3⟩
  | cons p rest ih =>
    obtain ⟨r, ach⟩ := p
    intro s h1 h2 h3 h4 h5
    simp only [List.length_cons] at h5
    have hstep := step_no_delta cfg r ach s c h1
      (h4 (r, ach) (List.mem_cons_self _ _)) h3 h2 (by omega)
    obtain ⟨u, pa, hrun, hpa⟩ := ih
      { s with task_steps := s.task_steps + 1, past_achievements := ach,
               unlocked := unlockedUpd s ach }
      h1 h2 (h4 (r, ach) (List.mem_cons_self _ _))
      (fun q hq => h4 q (List.mem_cons_of_mem _ hq))
      (by show s.task_steps + 1 + rest.length ≤ 300; omega)
    refine ⟨u, pa, ?_, hpa⟩
    simp only [runRewards, hstep, hrun, List.length_cons, List.replicate_succ]
    have harith : s.task_steps + 1 + rest.length = s.task_steps + (rest.length + 1) := by
      omega
    rw [harith]

theorem runRewards_append (cfg : Config) (l1 l2 : List (Draw × AchMap)) :
    ∀ (s : State) (rws : List ℚ) (sMid : State),
      runRewards cfg l1 s = Except.ok (rws, sMid) →
      runRewards cfg (l1 ++ l2) s =
        (match runRewards cfg l2 sMid with
         | Except.error e => Except.error e
         | Except.ok (rws2, sF) => Except.ok (rws ++ rws2, sF)) := by
  induction l1 with
  | nil =>
    intro s rws sMid h
    simp only [runRewards, Except.ok.injEq, Prod.mk.injEq] at h
    obtain ⟨h1, h2⟩ := h
    subst h1; subst h2
    simp only [List.nil_append]
    cases hr : runRewards cfg l2 s <;> simp
  | cons p rest ih =>
    obtain ⟨r, ach⟩ := p
    intro s rws sMid h
    simp only [runRewards] at h
    cases hg : _get_reward cfg r ach s with
    | error e =>
      simp only [hg] at h
      exact Except.noConfusion h
    | ok q =>
      obtain ⟨rw, s'⟩ := q
      simp only [hg] at h
      cases hr : runRewards cfg rest s' with
      | error e =>
        simp only [hr] at h
        exact Except.noConfusion h
      | ok q2 =>
        obtain ⟨rws1, sMid1⟩ := q2
        simp only [hr, Except.ok.injEq, Prod.mk.injEq] at h
        obtain ⟨h1, h2⟩ := h
        subst h1; subst h2
        rw [List.cons_append]
        simp only [runRewards, hg, ih s' rws1 sMid1 hr]
        cases hr2 : runRewards cfg l2 sMid1 <;> simp

/-- Claim C3, amended.  If no qualifying achievement delta occurs for 301
consecutive steps after a task is assigned (`task_steps = 0`), then every one
of the 301 steps emits reward `0`, and on the 301st — `task_steps` having
exceeded the fixed threshold 300 — the engine invokes the Task Selector to
reassign, zeroes `task_steps` and `repeatProgress`, leaves `followCounts`
untouched, and increments `givenCounts` only for the *newly assigned* slot; in
particular the abandoned task's `givenCounts` entry does not increment
provided the selector assigned a different slot (it does increment when the
selector happens to redraw the same slot — see the counterexample). -/
theorem C3_amended (cfg : Config) (pre : List (Draw × AchMap)) (rT : Draw) (achT : AchMap)
    (s : State) (c : ℕ)
    (hidx : s.task_idx < cfg.target_achievements.length)
    (hsteps0 : s.task_steps = 0)
    (hprog : s.task_progress < 1)
    (hp : alookup (rewardKey cfg s.task_idx) s.past_achievements = some c)
    (hpre : ∀ p ∈ pre, alookup (rewardKey cfg s.task_idx) p.2 = some c)
    (hachT : alookup (rewardKey cfg s.task_idx) achT = some c)
    (hn : pre.length = 300) :
    rewardsOf (runRewards cfg (pre ++ [(rT, achT)]) s) = some (List.replicate 301 0) ∧
    (runFinal cfg (pre ++ [(rT, achT)]) s).task_idx = selIdx cfg rT s ∧
    (runFinal cfg (pre ++ [(rT, achT)]) s).task_steps = 0 ∧
    (runFinal cfg (pre ++ [(rT, achT)]) s).task_progress = 0 ∧
    (runFinal cfg (pre ++ [(rT, achT)]) s).given_achievements =
      bumpA (slotKey cfg (selIdx cfg rT s)) s.given_achievements ∧
    (runFinal cfg (pre ++ [(rT, achT)]) s).follow_achievements = s.follow_achievements ∧
    (slotKey cfg (selIdx cfg rT s) ≠ slotKey cfg s.task_idx →
      alookup (slotKey cfg s.task_idx)
          (runFinal cfg (pre ++ [(rT, achT)]) s).given_achievements =
        alookup (slotKey cfg s.task_idx) s.given_achievements) := by
  obtain ⟨u, pa, hrun, hpa⟩ := run_no_delta cfg c pre s hidx hprog hp hpre (by omega)
  have hstep := step_timeout cfg rT achT
    { s with task_steps := s.task_steps + pre.length, past_achievements := pa, unlocked := u }
    c hidx hachT hpa hprog (by show 300 ≤ s.task_steps + pre.length; omega)
  have htotal := runRewards_append cfg pre [(rT, achT)] s (List.replicate pre.length 0)
    { s with task_steps := s.task_steps + pre.length, past_achievements := pa, unlocked := u }
    hrun
  have hrep301 : List.replicate pre.length (0 : ℚ) ++ [0] = List.replicate 301 0 := by
    rw [hn, ← List.replicate_succ']
  have hfields := timeoutUpdate_fields cfg rT
    { s with
        task_steps := s.task_steps + pre.length + 1,
        past_achievements := pa,
        unlocked := unlockedUpd
          { s with task_steps := s.task_steps + pre.length, past_achievements := pa,
                   unlocked := u } achT }
  unfold runFinal
  rw [htotal]
  simp only [runRewards, hstep]
  rw [hrep301]
  simp only [rewardsOf, finalStateOf, Option.getD_some]
  refine ⟨trivial, hfields.1, hfields.2.1, hfields.2.2.1, hfields.2.2.2.1,
    hfields.2.2.2.2, ?_⟩
  intro hne
  rw [hfields.2.2.2.1]
  exact alookup_bumpA_ne _ _ _ (Ne.symm hne)

/-- Witness for the amended C3: 301 concrete no-delta steps on `place_table`
reassign with zero rewards and fresh counters. -/
theorem C3_witness :
    rewardsOf (runRewards cfgPT (inPT 300 ++ [(d0, [("place_table", 0)])]) sPT) =
      some (List.replicate 301 0) ∧
    (runFinal cfgPT (inPT 300 ++ [(d0, [("place_table", 0)])]) sPT).task_idx =
      selIdx cfgPT d0 sPT ∧
    (runFinal cfgPT (inPT 300 ++ [(d0, [("place_table", 0)])]) sPT).task_steps = 0 ∧
    (runFinal cfgPT (inPT 300 ++ [(d0, [("place_table", 0)])]) sPT).task_progress = 0 ∧
    (runFinal cfgPT (inPT 300 ++ [(d0, [("place_table", 0)])]) sPT).given_achievements =
      bumpA (slotKey cfgPT (selIdx cfgPT d0 sPT)) sPT.given_achievements ∧
    (runFinal cfgPT (inPT 300 ++ [(d0, [("place_table", 0)])]) sPT).follow_achievements =
      sPT.follow_achievements ∧
    (slotKey cfgPT (selIdx cfgPT d0 sPT) ≠ slotKey cfgPT sPT.task_idx →
      alookup (slotKey cfgPT sPT.task_idx)
          (runFinal cfgPT (inPT 300 ++ [(d0, [("place_table", 0)])]) sPT).given_achievements =
        alookup (slotKey cfgPT sPT.task_idx) sPT.given_achievements) :=
  C3_amended cfgPT (inPT 300) d0 [("place_table", 0)] sPT 0 (by decide) (by decide)
    (by decide) (by decide) (by decide) (by decide) (by decide)

theorem fiter_shift (N : ℕ) (x : ℚ) (k : ℕ) :
    fiter N (fadd x (fdiv 1 ((N : ℕ) : ℚ))) k = fiter N x (k + 1) := by
  induction k with
  | zero => rfl
  | succ k ih => simp only [fiter, ih]

theorem increasingOnB_cons (key : String) (prev : ℕ) (r : Draw) (ach : AchMap)
    (rest : List (Draw × AchMap))
    (h : increasingOnB key prev ((r, ach) :: rest) = true) :
    ∃ c, alookup key ach = some c ∧ prev < c ∧ increasingOnB key c rest = true := by
  simp only [increasingOnB] at h
  cases hl : alookup key ach with
  | none =>
    simp only [hl] at h
    exact Bool.noConfusion h
  | some c =>
    simp only [hl, Bool.and_eq_true, decide_eq_true_eq] at h
    exact ⟨c, rfl, h.1, h.2⟩

theorem increasingOnB_append (key : String) (l1 : List (Draw × AchMap)) :
    ∀ (c : ℕ) (l2 : List (Draw × AchMap)),
      increasingOnB key c (l1 ++ l2) = true →
      increasingOnB key (lastCount key c l1) l2 = true := by
  induction l1 with
  | nil => intro c l2 h; exact h
  | cons p rest ih =>
    obtain ⟨r, ach⟩ := p
    intro c l2 h
    obtain ⟨c', hl, hlt, hrest⟩ := increasingOnB_cons key c r ach (rest ++ l2) h
    have : lastCount key c ((r, ach) :: rest) = lastCount key c' rest := by
      simp only [lastCount, hl, Option.getD_some]
    rw [this]
    exact ih c' l2 hrest

/-- A qualifying repeat-task step whose accumulated float progress stays below
1: reward `0`, progress advanced by the rounded `1/N`, `task_steps` bumped. -/
theorem step_rep_nofire (cfg : Config) (r : Draw) (ach : AchMap) (s : State) (a p N : ℕ)
    (hidx : s.task_idx < cfg.target_achievements.length)
    (hrep : cfg.isreptask.getD s.task_idx false = true)
    (ha : alookup (rewardKey cfg s.task_idx) ach = some a)
    (hp : alookup (rewardKey cfg s.task_idx) s.past_achievements = some p)
    (hlt : p < a)
    (htok : tokToNat ((pySplit (cfg.target_achievements.getD s.task_idx "")).getLastD "") =
      some N)
    (hN0 : ¬N = 0)
    (hnofire : fadd s.task_progress (fdiv 1 ((N : ℕ) : ℚ)) < 1)
    (hsteps : s.task_steps + 1 ≤ 300) :
    _get_reward cfg r ach s = Except.ok (0,
      { s with task_progress := fadd s.task_progress (fdiv 1 ((N : ℕ) : ℚ)),
               task_steps := s.task_steps + 1, past_achievements := ach,
               unlocked := unlockedUpd s ach }) := by
  simp only [rewardKey, if_pos hrep] at ha hp
  have h2 : ¬(1 ≤ fadd s.task_progress (fdiv 1 ((N : ℕ) : ℚ))) := not_le.mpr hnofire
  have h3 : ¬(300 < s.task_steps + 1) := by omega
  simp only [_get_reward, hidx, if_true, hrep, ha, hp, hlt, htok, hN0, if_false, h2,
    failTail, h3]

/-- A qualifying repeat-task step whose accumulated float progress reaches 1:
reward `1` and resolution of the task. -/
theorem step_rep_fire (cfg : Config) (r : Draw) (ach : AchMap) (s : State) (a p N : ℕ)
    (hidx : s.task_idx < cfg.target_achievements.length)
    (hrep : cfg.isreptask.getD s.task_idx false = true)
    (ha : alookup (rewardKey cfg s.task_idx) ach = some a)
    (hp : alookup (rewardKey cfg s.task_idx) s.past_achievements = some p)
    (hlt : p < a)
    (htok : tokToNat ((pySplit (cfg.target_achievements.getD s.task_idx "")).getLastD "") =
      some N)
    (hN0 : ¬N = 0)
    (hfire : 1 ≤ fadd s.task_progress (fdiv 1 ((N : ℕ) : ℚ))) :
    _get_reward cfg r ach s = Except.ok (1,
      { resolveTask cfg r (cfg.target_achievements.getD s.task_idx "")
          { s with task_progress := fadd s.task_progress (fdiv 1 ((N : ℕ) : ℚ)),
                   unlocked := unlockedUpd s ach } with
        past_achievements := ach }) := by
  simp only [rewardKey, if_pos hrep] at ha hp
  simp only [_get_reward, hidx, if_true, hrep, ha, hp, hlt, htok, hN0, if_false, hfire,
    if_true]

/-- Iterating `step_rep_nofire`: a run of qualifying repeat-task deltas whose
accumulated float progress stays below 1 emits only zero rewards, advancing
the progress one rounded `1/N` per step. -/
theorem run_rep_deltas (cfg : Config) (N : ℕ) (inputs : List (Draw × AchMap)) :
    ∀ (s : State) (c : ℕ),
      s.task_idx < cfg.target_achievements.length →
      cfg.isreptask.getD s.task_idx false = true →
      tokToNat ((pySplit (cfg.target_achievements.getD s.task_idx "")).getLastD "") =
        some N →
      ¬N = 0 →
      alookup (rewardKey cfg s.task_idx) s.past_achievements = some c →
      increasingOnB (rewardKey cfg s.task_idx) c inputs = true →
      (∀ k, 1 ≤ k → k ≤ inputs.length → fiter N s.task_progress k < 1) →
      s.task_steps + inputs.length ≤ 300 →
      ∃ u pa, runRewards cfg inputs s = Except.ok (List.replicate inputs.length 0,
          { s with task_progress := fiter N s.task_progress inputs.length,
                   task_steps := s.task_steps + inputs.length,
                   past_achievements := pa, unlocked := u }) ∧
        alookup (rewardKey cfg s.task_idx) pa =
          some (lastCount (rewardKey cfg s.task_idx) c inputs) := by
  induction inputs with
  | nil =>
    intro s c h1 h2 h3 h4 h5 h6 h7 h8
    exact ⟨s.unlocked, s.past_achievements, by simp [runRewards, fiter], h5⟩
  | cons p rest ih =>
    obtain ⟨r, ach⟩ := p
    intro s c h1 h2 h3 h4 h5 h6 h7 h8
    simp only [List.length_cons] at h8
    obtain ⟨c', hl, hlt, hrest⟩ := increasingOnB_cons _ c r ach rest h6
    have hstep := step_rep_nofire cfg r ach s c' c N h1 h2 hl h5 hlt h3 h4
      (h7 1 le_rfl (by simp)) (by omega)
    obtain ⟨u, pa, hrun, hpa⟩ := ih
      { s with task_progress := fadd s.task_progress (fdiv 1 ((N : ℕ) : ℚ)),
               task_steps := s.task_steps + 1, past_achievements := ach,
               unlocked := unlockedUpd s ach }
      c' h1 h2 h3 h4 hl hrest
      (by
        intro k hk1 hk2
        show fiter N (fadd s.task_progress (fdiv 1 ((N : ℕ) : ℚ))) k < 1
        rw [fiter_shift]
        exact h7 (k + 1) (by omega) (by simp only [List.length_cons]; omega))
      (by show s.task_steps + 1 + rest.length ≤ 300; omega)
    refine ⟨u, pa, ?_, ?_⟩
    · simp only [runRewards, hstep, hrun, List.length_cons, List.replicate_succ]
      rw [show s.task_steps + 1 + rest.length = s.task_steps + (rest.length + 1) by omega]
      rw [show fiter N (fadd s.task_progress (fdiv 1 ((N : ℕ) : ℚ))) rest.length =
        fiter N s.task_progress (rest.length + 1) from fiter_shift N s.task_progress _]
    · rw [show lastCount (rewardKey cfg s.task_idx) c ((r, ach) :: rest) =
        lastCount (rewardKey cfg s.task_idx) c' rest by
          simp only [lastCount, hl, Option.getD_some]]
      exact hpa

theorem increasingOnB_front (key : String) (l1 : List (Draw × AchMap)) :
    ∀ (c : ℕ) (l2 : List (Draw × AchMap)),
      increasingOnB key c (l1 ++ l2) = true → increasingOnB key c l1 = true := by
  induction l1 with
  | nil => intro c l2 h; rfl
  | cons p rest ih =>
    obtain ⟨r, ach⟩ := p
    intro c l2 h
    obtain ⟨c', hl, hlt, hrest⟩ := increasingOnB_cons key c r ach (rest ++ l2) h
    simp only [increasingOnB, hl, Bool.and_eq_true, decide_eq_true_eq]
    exact ⟨hlt, ih c' l2 hrest⟩

/-- Claim C1, amended.  For an active repeat task with repeat count N (parsed
from the trailing token of the surface descriptor), each qualifying
achievement delta adds the *binary64-rounded* `1/N` to `repeatProgress` with
binary64 addition, and the reward of `+1.0` is emitted exactly once on the
K-th qualifying delta, where K is the first index at which this accumulated
floating-point sum reaches `1.0` — with `repeatProgress` reset to 0
immediately after firing and the selector invoked (no timeout intervening).
For the source's repeat counts, K = N for the N = 5 tasks, but K = N + 1 = 11
for the N = 10 `collect` tasks, since ten rounded copies of `1/10` sum to
just below 1 (see the counterexample). -/
theorem C1_amended (cfg : Config) (pre : List (Draw × AchMap)) (rF : Draw) (achF : AchMap)
    (s : State) (c N : ℕ)
    (hidx : s.task_idx < cfg.target_achievements.length)
    (hrep : cfg.isreptask.getD s.task_idx false = true)
    (htok : tokToNat ((pySplit (cfg.target_achievements.getD s.task_idx "")).getLastD "") =
      some N)
    (hN0 : ¬N = 0)
    (hprog0 : s.task_progress = 0)
    (hp : alookup (rewardKey cfg s.task_idx) s.past_achievements = some c)
    (hchain : increasingOnB (rewardKey cfg s.task_idx) c (pre ++ [(rF, achF)]) = true)
    (hmin : ∀ j ≤ pre.length, fiter N 0 j < 1)
    (hfire : 1 ≤ fiter N 0 (pre.length + 1))
    (hsteps : s.task_steps + pre.length + 1 ≤ 300) :
    rewardsOf (runRewards cfg (pre ++ [(rF, achF)]) s) =
      some (List.replicate pre.length 0 ++ [1]) ∧
    (runFinal cfg (pre ++ [(rF, achF)]) s).task_progress = 0 ∧
    (runFinal cfg (pre ++ [(rF, achF)]) s).task_idx = selIdx cfg rF s ∧
    (runFinal cfg (pre ++ [(rF, achF)]) s).task_steps = 0 ∧
    (runFinal cfg (pre ++ [(rF, achF)]) s).follow_achievements =
      bumpF (cfg.target_achievements.getD s.task_idx "") s.follow_achievements ∧
    (runFinal cfg (pre ++ [(rF, achF)]) s).given_achievements =
      bumpA (slotKey cfg (selIdx cfg rF s)) s.given_achievements := by
  obtain ⟨u, pa, hrun, hpa⟩ := run_rep_deltas cfg N pre s c hidx hrep htok hN0 hp
    (increasingOnB_front _ pre c [(rF, achF)] hchain)
    (fun k hk1 hk2 => by rw [hprog0]; exact hmin k hk2)
    (by omega)
  obtain ⟨cF, hlF, hltF, _⟩ := increasingOnB_cons _ _ rF achF []
    (increasingOnB_append _ pre c [(rF, achF)] hchain)
  have hfireF : 1 ≤ fadd
      (fiter N s.task_progress pre.length) (fdiv 1 ((N : ℕ) : ℚ)) := by
    rw [hprog0]
    exact hfire
  have hstepF := step_rep_fire cfg rF achF
    { s with task_progress := fiter N s.task_progress pre.length,
             task_steps := s.task_steps + pre.length,
             past_achievements := pa, unlocked := u }
    cF (lastCount (rewardKey cfg s.task_idx) c pre) N hidx hrep hlF hpa hltF htok hN0
    hfireF
  have htotal := runRewards_append cfg pre [(rF, achF)] s (List.replicate pre.length 0)
    { s with task_progress := fiter N s.task_progress pre.length,
             task_steps := s.task_steps + pre.length,
             past_achievements := pa, unlocked := u }
    hrun
  have hfields := resolveTask_fields cfg rF (cfg.target_achievements.getD s.task_idx "")
    { s with
        task_progress := fadd (fiter N s.task_progress pre.length) (fdiv 1 ((N : ℕ) : ℚ)),
        task_steps := s.task_steps + pre.length,
        past_achievements := pa,
        unlocked := unlockedUpd
          { s with task_progress := fiter N s.task_progress pre.length,
                   task_steps := s.task_steps + pre.length,
                   past_achievements := pa, unlocked := u } achF }
  unfold runFinal
  rw [htotal]
  simp only [runRewards, hstepF]
  simp only [rewardsOf, finalStateOf, Option.getD_some]
  exact ⟨trivial, hfields.2.2.1, hfields.1, hfields.2.1, hfields.2.2.2.2,
    hfields.2.2.2.1⟩

/-- Witness for the amended C1: `place_stone_5` (repeat count 5) receives five
qualifying deltas; the float sum of five rounded `1/5` first reaches 1 on the
fifth, so the rewards are `[0, 0, 0, 0, 1]` and progress resets. -/
theorem C1_witness :
    rewardsOf (runRewards cfgRep5 (inRep5 4 ++ [(d0, [("place_stone", 5)])]) sRep5) =
      some (List.replicate 4 0 ++ [1]) ∧
    (runFinal cfgRep5 (inRep5 4 ++ [(d0, [("place_stone", 5)])]) sRep5).task_progress = 0 ∧
    (runFinal cfgRep5 (inRep5 4 ++ [(d0, [("place_stone", 5)])]) sRep5).task_idx =
      selIdx cfgRep5 d0 sRep5 ∧
    (runFinal cfgRep5 (inRep5 4 ++ [(d0, [("place_stone", 5)])]) sRep5).task_steps = 0 ∧
    (runFinal cfgRep5 (inRep5 4 ++ [(d0, [("place_stone", 5)])]) sRep5).follow_achievements =
      bumpF (cfgRep5.target_achievements.getD sRep5.task_idx "")
        sRep5.follow_achievements ∧
    (runFinal cfgRep5 (inRep5 4 ++ [(d0, [("place_stone", 5)])]) sRep5).given_achievements =
      bumpA (slotKey cfgRep5 (selIdx cfgRep5 d0 sRep5)) sRep5.given_achievements :=
  C1_amended cfgRep5 (inRep5 4) d0 [("place_stone", 5)] sRep5 0 5 (by decide) (by decide)
    (by decide) (by decide) (by decide) (by decide) (by decide) (by decide) (by decide)
    (by decide)

theorem failTail_given (cfg : Config) (r : Draw) (s : State) :
    ((failTail cfg r s).given_achievements = s.given_achievements ∧
      (failTail cfg r s).task_idx = s.task_idx) ∨
    ((failTail cfg r s).task_idx = selIdx cfg r s ∧
      (failTail cfg r s).given_achievements =
        bumpA (slotKey cfg (selIdx cfg r s)) s.given_achievements) := by
  simp only [failTail]
  split
  · right
    have hf := timeoutUpdate_fields cfg r { s with task_steps := s.task_steps + 1 }
    exact ⟨hf.1, hf.2.2.2.1⟩
  · left
    exact ⟨rfl, rfl⟩

/-- The only ways a `_get_reward` step can touch `given_achievements`: leave
it alone, or bump exactly the slot the installed selector assigns. -/
theorem step_given (cfg : Config) (r : Draw) (ach : AchMap) (s : State) (rw : ℚ) (s' : State)
    (h : _get_reward cfg r ach s = Except.ok (rw, s')) :
    (s'.given_achievements = s.given_achievements) ∨
    (s'.task_idx = selIdx cfg r s ∧
      s'.given_achievements = bumpA (slotKey cfg (selIdx cfg r s)) s.given_achievements) := by
  simp only [_get_reward] at h
  repeat' split at h
  all_goals
    first
    | exact Except.noConfusion h
    | (injection h with h1; injection h1 with hrw hst; subst hst;
       first
       | (right
          refine ⟨(resolveTask_fields cfg r _ _).1, ?_⟩
          exact (resolveTask_fields cfg r _ _).2.2.2.1)
       | (rcases failTail_given cfg r _ with ⟨hg, _⟩ | ⟨hi, hg⟩
          · left; exact hg
          · right; exact ⟨hi, hg⟩))

theorem givenSum_init (cfg : Config) :
    givenSum (cfg.target_achievements.map (fun k => (k, 0)) ++
      (List.range DUMMY_TASKS).map (fun i => ("dummy" ++ toString i, 0))) = 0 := by
  unfold givenSum
  apply List.sum_eq_zero
  intro x hx
  simp only [List.map_append, List.map_map, List.mem_append, List.mem_map,
    Function.comp] at hx
  rcases hx with ⟨k, hk, he⟩ | ⟨i, hi, he⟩ <;> exact he.symm

theorem slotKey_mem_init (cfg : Config) (idx : ℕ)
    (h : idx < cfg.target_achievements.length + DUMMY_TASKS) :
    slotKey cfg idx ∈ (cfg.target_achievements.map (fun k => (k, 0)) ++
      (List.range DUMMY_TASKS).map (fun i => ("dummy" ++ toString i, 0))).map Prod.fst := by
  simp only [List.map_append, List.map_map, List.mem_append, List.mem_map, Function.comp]
  unfold slotKey
  split
  · left
    rename_i hlt
    refine ⟨cfg.target_achievements[idx], List.getElem_mem hlt, ?_⟩
    simp [List.getD_eq_getElem?_getD, List.getElem?_eq_getElem hlt]
  · right
    rename_i hge
    refine ⟨idx - cfg.target_achievements.length, List.mem_range.mpr (by omega), rfl⟩

/-- The `given_achievements` bookkeeping of `reset`: the freshly zeroed
dictionary with exactly the initial assignment's slot at 1 — total 1. -/
theorem reset_givenSum (cfg : Config) (r : Draw) (ach0 : AchMap) (s : State)
    (hsel : selIdx cfg r s < cfg.target_achievements.length + DUMMY_TASKS) :
    givenSum (reset cfg r ach0 s).given_achievements = 1 := by
  simp only [reset, update_given_ach_eq, specify_task_idx, specify_given]
  have hconv : selIdx cfg r
      { s with unlocked := [], past_achievements := ach0,
               follow_achievements := fun _ => 0,
               given_achievements := cfg.target_achievements.map (fun k => (k, 0)) ++
                 (List.range DUMMY_TASKS).map (fun i => ("dummy" ++ toString i, 0)) } =
    selIdx cfg r s := rfl
  rw [hconv, givenSum_bumpA _ _ (slotKey_mem_init cfg _ hsel), givenSum_init]

theorem run_given_sum (cfg : Config) (inputs : List (Draw × AchMap)) :
    ∀ (s : State) (rws : List ℚ) (sF : State),
      presAllB cfg inputs s = true →
      runRewards cfg inputs s = Except.ok (rws, sF) →
      ∃ m, runGivenChanges cfg inputs s = some m ∧
        givenSum sF.given_achievements = givenSum s.given_achievements + m := by
  induction inputs with
  | nil =>
    intro s rws sF hpres hrun
    simp only [runRewards, Except.ok.injEq, Prod.mk.injEq] at hrun
    obtain ⟨h1, h2⟩ := hrun
    subst h2
    exact ⟨0, rfl, rfl⟩
  | cons p rest ih =>
    obtain ⟨r, ach⟩ := p
    intro s rws sF hpres hrun
    simp only [presAllB, Bool.and_eq_true, decide_eq_true_eq] at hpres
    obtain ⟨hmem, hrest⟩ := hpres
    simp only [runRewards] at hrun
    cases hg : _get_reward cfg r ach s with
    | error e =>
      simp only [hg] at hrun
      exact Except.noConfusion hrun
    | ok q =>
      obtain ⟨rw, s'⟩ := q
      simp only [hg] at hrun hrest
      cases hr : runRewards cfg rest s' with
      | error e =>
        simp only [hr] at hrun
        exact Except.noConfusion hrun
      | ok q2 =>
        obtain ⟨rws1, sF1⟩ := q2
        simp only [hr, Except.ok.injEq, Prod.mk.injEq] at hrun
        obtain ⟨h1, h2⟩ := hrun
        rw [← h2]
        obtain ⟨m, hm, hsum⟩ := ih s' rws1 sF1 hrest hr
        refine ⟨m + (if s'.given_achievements = s.given_achievements then 0 else 1),
          ?_, ?_⟩
        · simp only [runGivenChanges, hg, hm, Option.map_some']
        · rcases step_given cfg r ach s rw s' hg with hsame | ⟨hidx2, hbump⟩
          · rw [if_pos hsame, hsum, hsame]
            omega
          · have hne : s'.given_achievements ≠ s.given_achievements := by
              rw [hbump]
              exact bumpA_ne_self _ _ hmem
            rw [if_neg hne, hsum, hbump, givenSum_bumpA _ _ hmem]
            omega

/-- Claim C8.  Every task (re)assignment increments `given_achievements` by
exactly one for the newly active slot and for no other: (a) `reset` seeds the
zeroed dictionary and records exactly one assignment, so its counters sum to
1; (b) a normally-returning `_get_reward` step either leaves the dictionary
untouched (no reassignment) or bumps exactly the slot the selector assigned,
raising the sum by exactly 1 and every other key's count not at all; hence
(c) after any post-reset run, the sum of all `given_achievements` counters is
1 plus the number of steps that reassigned.  (The key-presence hypotheses
reflect that the source would raise `KeyError` on a slot index outside
`[0, len + DUMMY_TASKS)`.) -/
theorem C8_given_counts :
    (∀ (cfg : Config) (r : Draw) (ach0 : AchMap) (s : State),
      selIdx cfg r s < cfg.target_achievements.length + DUMMY_TASKS →
      givenSum (reset cfg r ach0 s).given_achievements = 1) ∧
    (∀ (cfg : Config) (r : Draw) (ach : AchMap) (s : State),
      isOkB (_get_reward cfg r ach s) = true →
      slotKey cfg (selIdx cfg r s) ∈ s.given_achievements.map Prod.fst →
      ((stepState (_get_reward cfg r ach s) s).given_achievements =
          s.given_achievements ∧
        givenSum (stepState (_get_reward cfg r ach s) s).given_achievements =
          givenSum s.given_achievements) ∨
      ((stepState (_get_reward cfg r ach s) s).task_idx = selIdx cfg r s ∧
        (stepState (_get_reward cfg r ach s) s).given_achievements =
          bumpA (slotKey cfg (selIdx cfg r s)) s.given_achievements ∧
        givenSum (stepState (_get_reward cfg r ach s) s).given_achievements =
          givenSum s.given_achievements + 1 ∧
        ∀ k2, k2 ≠ slotKey cfg (selIdx cfg r s) →
          alookup k2 (stepState (_get_reward cfg r ach s) s).given_achievements =
            alookup k2 s.given_achievements)) ∧
    (∀ (cfg : Config) (inputs : List (Draw × AchMap)) (r : Draw) (ach0 : AchMap)
        (s : State),
      selIdx cfg r s < cfg.target_achievements.length + DUMMY_TASKS →
      presAllB cfg inputs (reset cfg r ach0 s) = true →
      isOkB (runRewards cfg inputs (reset cfg r ach0 s)) = true →
      givenSum (runFinal cfg inputs (reset cfg r ach0 s)).given_achievements =
        1 + (runGivenChanges cfg inputs (reset cfg r ach0 s)).getD 0) := by
  refine ⟨reset_givenSum, ?_, ?_⟩
  · intro cfg r ach s hok hmem
    cases hg : _get_reward cfg r ach s with
    | error e => rw [hg] at hok; simp [isOkB] at hok
    | ok q =>
      obtain ⟨rw, s'⟩ := q
      simp only [stepState]
      rcases step_given cfg r ach s rw s' hg with hsame | ⟨hidx2, hbump⟩
      · left
        exact ⟨hsame, by rw [hsame]⟩
      · right
        refine ⟨hidx2, hbump, ?_, ?_⟩
        · rw [hbump, givenSum_bumpA _ _ hmem]
        · intro k2 hk2
          rw [hbump, alookup_bumpA_ne _ _ _ hk2]
  · intro cfg inputs r ach0 s hsel hpres hok
    cases hrun : runRewards cfg inputs (reset cfg r ach0 s) with
    | error e => rw [hrun] at hok; simp [isOkB] at hok
    | ok q =>
      obtain ⟨rws, sF⟩ := q
      obtain ⟨m, hm, hsum⟩ :=
        run_given_sum cfg inputs (reset cfg r ach0 s) rws sF hpres hrun
      unfold runFinal
      rw [hrun]
      simp only [finalStateOf, Option.getD_some]
      rw [hsum, hm, reset_givenSum cfg r ach0 s hsel]
      simp

/-- Witness for C8: on the `place_table` environment, the reset counters sum
to 1; a concrete successful step bumps exactly the reassigned slot; and after
a one-step post-reset run the counters sum to 1 plus the number of
reassignments. -/
theorem C8_witness :
    givenSum (reset cfgPT d0 [("place_table", 0)] sPT).given_achievements = 1 ∧
    (((stepState (_get_reward cfgPT d0 [("place_table", 1)] sPT) sPT).given_achievements =
        sPT.given_achievements ∧
      givenSum (stepState (_get_reward cfgPT d0 [("place_table", 1)] sPT)
          sPT).given_achievements = givenSum sPT.given_achievements) ∨
     ((stepState (_get_reward cfgPT d0 [("place_table", 1)] sPT) sPT).task_idx =
        selIdx cfgPT d0 sPT ∧
      (stepState (_get_reward cfgPT d0 [("place_table", 1)] sPT) sPT).given_achievements =
        bumpA (slotKey cfgPT (selIdx cfgPT d0 sPT)) sPT.given_achievements ∧
      givenSum (stepState (_get_reward cfgPT d0 [("place_table", 1)] sPT)
          sPT).given_achievements = givenSum sPT.given_achievements + 1 ∧
      ∀ k2, k2 ≠ slotKey cfgPT (selIdx cfgPT d0 sPT) →
        alookup k2 (stepState (_get_reward cfgPT d0 [("place_table", 1)] sPT)
            sPT).given_achievements = alookup k2 sPT.given_achievements)) ∧
    givenSum (runFinal cfgPT [(d0, [("place_table", 1)])]
        (reset cfgPT d0 [("place_table", 0)] sPT)).given_achievements =
      1 + (runGivenChanges cfgPT [(d0, [("place_table", 1)])]
        (reset cfgPT d0 [("place_table", 0)] sPT)).getD 0 :=
  ⟨C8_given_counts.1 cfgPT d0 [("place_table", 0)] sPT (by decide),
   C8_given_counts.2.1 cfgPT d0 [("place_table", 1)] sPT (by decide) (by decide),
   C8_given_counts.2.2 cfgPT [(d0, [("place_table", 1)])] d0 [("place_table", 0)] sPT
     (by decide) (by decide) (by decide)⟩
